import Mathlib

set_option maxRecDepth 8192

/-!
Verification of the component/orchestration layer of the Anaconda Navigator
main window (`anaconda_navigator/widgets/main_window/__init__.py`), the
style-sheet pixel-scaling pass (`anaconda_navigator/utils/styles.py`), and the
signal-watcher / issue-solver collaborators those modules consume.

Python state is embedded explicitly: the component registry backing dict
(`MainWindowComponents.__content`) is an insertion-ordered association list,
raised exceptions are explicit error values, and callbacks are traced as
explicit effect lists.
-/

-- --------------------------------------------------------------------------
-- MainWindowComponents (src/anaconda_navigator/widgets/main_window/__init__.py,
-- class MainWindowComponents)
-- --------------------------------------------------------------------------

/--
Errors raised by `MainWindowComponents`.  The spec names the taxonomy
`DuplicateComponentError` / `InvalidComponentError` / `UnknownComponentError`;
in the Python source these are, respectively, the
`KeyError('component with same name is already added')` raised by `push`, the
`ValueError('component must have a valid name')` raised by `push`, and the
`KeyError` (wrapped into `AttributeError` for attribute access) raised by
lookup on a missing alias.
-/
inductive RegistryError where
  | duplicateComponent
  | invalidComponent
  | unknownComponent
deriving DecidableEq, Repr

/--
A component initializer: `componentAlias` embeds
`getattr(component, '__alias__', None)` (`none` when the attribute is
missing), and `build` is the component produced by `component(parent=...)`.
-/
structure Initializer (C : Type) where
  componentAlias : Option String
  build : C

/-- The aliases currently registered, in insertion order (`dict` key order). -/
def registryKeys {C : Type} (content : List (String × C)) : List String :=
  content.map Prod.fst

/--
`MainWindowComponents.push`.  Python raises on a falsy (`None` or empty) alias
and on a duplicate alias, leaving `self.__content` untouched; the component is
constructed and stored only after both checks pass.  The pair returns the
(possibly updated) registry together with the raised error, if any.
-/
def push {C : Type} (content : List (String × C)) (init : Initializer C) :
    List (String × C) × Option RegistryError :=
  match init.componentAlias with
  | none => (content, some .invalidComponent)
  | some key =>
    if key = "" then
      (content, some .invalidComponent)
    else if key ∈ registryKeys content then
      (content, some .duplicateComponent)
    else
      (content ++ [(key, init.build)], none)

/--
`MainWindowComponents.__getitem__` (and the `__getattr__` fallback, which
wraps the same dict lookup): return the component stored under `key`, or fail
with the unknown-component error when the alias is absent.
-/
def getComponent {C : Type} (content : List (String × C)) (key : String) :
    Except RegistryError C :=
  match content with
  | [] => .error .unknownComponent
  | (k, c) :: rest => if key = k then .ok c else getComponent rest key

/--
`MainWindowComponents.for_each`: a plain `for` loop applying `action` to every
stored component in insertion order.  `action` is fallible (`some e` embeds a
raised exception); a raise propagates out of the loop immediately.  The first
result lists the components on which `action` was actually invoked, in order;
the second is the propagated error, if any.
-/
def for_each {C E : Type} (content : List (String × C)) (action : C → Option E) :
    List C × Option E :=
  match content with
  | [] => ([], none)
  | (_, c) :: rest =>
    match action c with
    | some e => ([c], some e)
    | none =>
      let r := for_each rest action
      (c :: r.1, r.2)

/--
Registry states reachable in the program have no empty alias: the backing dict
starts empty and `push` never stores a falsy key.
-/
def validKeys {C : Type} (content : List (String × C)) : Prop :=
  ∀ k ∈ registryKeys content, k ≠ ""

theorem validKeys_nil {C : Type} : validKeys ([] : List (String × C)) := by
  intro k hk
  simp [registryKeys] at hk

theorem validKeys_push {C : Type} (content : List (String × C))
    (init : Initializer C) (h : validKeys content) :
    validKeys (push content init).1 := by
  unfold push
  cases hk : init.componentAlias with
  | none => exact h
  | some key =>
    by_cases hkey : key = ""
    · simp only [hkey, if_pos rfl]
      exact h
    · simp only [if_neg hkey]
      by_cases hmem : key ∈ registryKeys content
      · simp only [if_pos hmem]
        exact h
      · simp only [if_neg hmem]
        intro k hk'
        simp only [registryKeys, List.map_append, List.mem_append] at hk'
        rcases hk' with hk' | hk'
        · exact h k hk'
        · simp at hk'
          subst hk'
          exact hkey

-- --------------------------------------------------------------------------
-- Claims C3, C7, C6, C4 (MainWindowComponents)
-- --------------------------------------------------------------------------

/--
C3: for every (reachable) component registry state and every initializer whose
alias is already present, `MainWindowComponents.push` fails with the duplicate
component error, and the registry is unchanged by the failed call: the
component first registered under the alias remains intact and no partial entry
is added.
-/
theorem push_duplicate_fails {C : Type} (content : List (String × C))
    (key : String) (c : C) (hwf : validKeys content)
    (hmem : key ∈ registryKeys content) :
    push content ⟨some key, c⟩ = (content, some .duplicateComponent) ∧
      getComponent (push content ⟨some key, c⟩).1 key = getComponent content key := by
  have hkey : key ≠ "" := hwf key hmem
  have h : push content ⟨some key, c⟩ = (content, some .duplicateComponent) := by
    unfold push
    simp only [if_neg hkey, if_pos hmem]
  exact ⟨h, by rw [h]⟩

/-- Witness for C3 at a concrete registry with a duplicate alias. -/
theorem push_duplicate_fails_witness :
    push [("notifications", 1)] ⟨some "notifications", 2⟩ =
      ([("notifications", 1)], some .duplicateComponent) :=
  (push_duplicate_fails [("notifications", 1)] "notifications" 2
    (by intro k hk; simp [registryKeys] at hk; simp [hk])
    (by simp [registryKeys])).1

/--
C7: for every initializer whose alias attribute is missing (`none`) or empty,
`MainWindowComponents.push` fails with the invalid component error and the
registry is unchanged; the result does not depend on the `build` field, i.e.
no component is constructed or added by the failed call.
-/
theorem push_invalid_alias_fails {C : Type} (content : List (String × C)) (c : C) :
    push content ⟨none, c⟩ = (content, some .invalidComponent) ∧
      push content ⟨some "", c⟩ = (content, some .invalidComponent) := by
  constructor
  · rfl
  · unfold push
    simp

/--
C6: for every alias not present in the (unique-alias) registry, lookup fails
fast with the unknown component error rather than silently returning nothing;
for every registered alias, lookup returns the component registered under it.
-/
theorem getComponent_lookup {C : Type} (content : List (String × C))
    (hnd : (registryKeys content).Nodup) :
    (∀ key, key ∉ registryKeys content →
      getComponent content key = .error .unknownComponent) ∧
    (∀ key c, (key, c) ∈ content → getComponent content key = .ok c) := by
  constructor
  · intro key hkey
    induction content with
    | nil => rfl
    | cons hd tl ih =>
      obtain ⟨k, c⟩ := hd
      simp only [registryKeys, List.map_cons, List.mem_cons, not_or] at hkey
      unfold getComponent
      rw [if_neg hkey.1]
      exact ih (by
        simpa [registryKeys] using List.Nodup.of_cons hnd) hkey.2
  · intro key c hmem
    induction content with
    | nil => simp at hmem
    | cons hd tl ih =>
      obtain ⟨k, c'⟩ := hd
      simp only [registryKeys, List.map_cons, List.nodup_cons] at hnd
      rcases List.mem_cons.mp hmem with heq | htl
      · have h1 : key = k := congrArg Prod.fst heq
        have h2 : c = c' := congrArg Prod.snd heq
        unfold getComponent
        simp [h1, h2]
      · have hkey : key ≠ k := by
          intro h
          apply hnd.1
          subst h
          exact List.mem_map_of_mem Prod.fst htl
        unfold getComponent
        rw [if_neg hkey]
        exact ih (by simpa [registryKeys] using hnd.2) htl

/-- Witness for C6 at a concrete two-component registry. -/
theorem getComponent_lookup_witness :
    getComponent [("accounts", 1), ("environments", 2)] "environments" = .ok 2 ∧
      getComponent [("accounts", 1), ("environments", 2)] "whats_new" =
        .error .unknownComponent :=
  ⟨(getComponent_lookup [("accounts", 1), ("environments", 2)] (by decide)).2
      "environments" 2 (by decide),
    (getComponent_lookup [("accounts", 1), ("environments", 2)] (by decide)).1
      "whats_new" (by decide)⟩

/--
C4 counterexample: `MainWindowComponents.for_each` does NOT
collect-and-continue.  With two registered components and an action that
raises on the first, the second registered component never receives the
operation: the loop aborts at the first raise.
-/
theorem for_each_no_continue_counterexample :
    for_each [("home", 0), ("environments", 1)]
        (fun c => if c = 0 then some 0 else none) = ([0], some 0) ∧
      1 ∉ (for_each [("home", 0), ("environments", 1)]
        (fun c => if c = 0 then some 0 else none)).1 := by
  constructor
  · rfl
  · intro h
    simp [for_each] at h

/--
C4 amended: `for_each` (and hence the `setup` / `update_style_sheet` /
`start_timers` / `stop_timers` proxies) applies the operation to the
registered components in registration order, stopping at the first failure:
when the operation succeeds on every component, all of them receive it in
registration order; when it first fails on some component, exactly the
components up to and including that one receive it, the raised error
propagates, and the remaining components are skipped (fail-fast, not
collect-and-continue).
-/
theorem for_each_in_order_fail_fast {C E : Type} (content : List (String × C))
    (action : C → Option E) :
    ((∀ c ∈ content.map Prod.snd, action c = none) →
      for_each content action = (content.map Prod.snd, none)) ∧
    (∀ ys z zs e, content = ys ++ z :: zs →
      (∀ y ∈ ys.map Prod.snd, action y = none) → action z.2 = some e →
      for_each content action = (ys.map Prod.snd ++ [z.2], some e)) := by
  constructor
  · intro hall
    induction content with
    | nil => rfl
    | cons hd tl ih =>
      obtain ⟨k, c⟩ := hd
      have hc : action c = none := hall c (by simp)
      unfold for_each
      rw [hc]
      have := ih (fun c' hc' => hall c' (by simp [hc']))
      simp [this]
  · intro ys z zs e hcontent hok hz
    subst hcontent
    induction ys with
    | nil =>
      unfold for_each
      simp [hz]
    | cons hd tl ih =>
      obtain ⟨k, c⟩ := hd
      have hc : action c = none := hok c (by simp)
      have heq := ih (fun y hy => hok y (by simp [hy]))
      rw [List.cons_append]
      unfold for_each
      rw [hc]
      simp [heq]

/-- Witness for the amended C4 at a concrete all-successful broadcast. -/
theorem for_each_in_order_fail_fast_witness :
    for_each [("home", 0), ("environments", 1)] (fun _ => (none : Option Unit)) =
      ([0, 1], none) :=
  (for_each_in_order_fail_fast [("home", 0), ("environments", 1)]
    (fun _ => (none : Option Unit))).1 (fun _ _ => rfl)

-- --------------------------------------------------------------------------
-- SignalWatcher (anaconda_navigator/utils/signal_watcher, consumed by
-- MainWindow.pre_visible_setup)
-- --------------------------------------------------------------------------

/--
Modelled from the spec: the `signal_watcher.SignalWatcher` module itself is
not in the provided sources (only its caller `MainWindow.pre_visible_setup`
is).  Per the spec, the watcher owns the set of registered names still
pending, whether it already fired, and invokes its stored callback exactly
once when the last outstanding registered name is received.  `fires` counts
callback invocations.
-/
structure SignalWatcher where
  pending : List String
  fired : Bool
  fires : Nat
deriving DecidableEq, Repr

/--
Modelled from the spec: a watcher on which `register_signal` has been called
for each of `names` (before any delivery), with the callback not yet fired.
In `MainWindow.pre_visible_setup` the registered names are
`conda_data_ready` and `feature_flags_ready`.
-/
def watcher_init (names : List String) : SignalWatcher :=
  { pending := names, fired := false, fires := 0 }

/--
Modelled from the spec: `SignalWatcher.signal_received(name)`.  After the
watcher has fired, calls are no-ops.  Otherwise the receipt of `name` is
recorded (removing it from the pending set; unregistered or repeated names
leave the pending set unchanged), and if this was the last outstanding
registered name the stored callback is invoked and the watcher is marked
fired.
-/
def signal_received (w : SignalWatcher) (name : String) : SignalWatcher :=
  if w.fired then w
  else
    let pending := w.pending.erase name
    if pending = [] then
      { pending := pending, fired := true, fires := w.fires + 1 }
    else
      { pending := pending, fired := false, fires := w.fires }

/-- Deliver a sequence of `signal_received` calls in order. -/
def deliver (w : SignalWatcher) (names : List String) : SignalWatcher :=
  names.foldl signal_received w

theorem signal_received_fired (w : SignalWatcher) (name : String)
    (h : w.fired = true) : signal_received w name = w := by
  unfold signal_received
  rw [h]
  rfl

theorem deliver_fired (w : SignalWatcher) (names : List String)
    (h : w.fired = true) : deliver w names = w := by
  induction names generalizing w with
  | nil => rfl
  | cons hd tl ih =>
    unfold deliver
    rw [List.foldl_cons, signal_received_fired w hd h]
    exact ih w h

theorem deliver_perm_fires (order : List String) (w : SignalWatcher)
    (hfired : w.fired = false) (hperm : order.Perm w.pending)
    (hne : order ≠ []) :
    deliver w order = { pending := [], fired := true, fires := w.fires + 1 } := by
  induction order generalizing w with
  | nil => exact absurd rfl hne
  | cons hd tl ih =>
    have hmem : hd ∈ w.pending := hperm.mem_iff.mp (List.mem_cons_self hd tl)
    have htl : tl.Perm (w.pending.erase hd) :=
      (hperm.trans (List.perm_cons_erase hmem)).cons_inv
    unfold deliver
    rw [List.foldl_cons]
    unfold signal_received
    rw [hfired]
    simp only [Bool.false_eq_true, if_false]
    by_cases hnil : w.pending.erase hd = []
    · have htlnil : tl = [] := List.Perm.eq_nil (hnil ▸ htl)
      subst htlnil
      simp [hnil]
    · rw [if_neg hnil]
      have hne' : tl ≠ [] := by
        intro h
        subst h
        exact hnil (htl.symm.eq_nil)
      exact ih _ rfl htl hne'

theorem deliver_incomplete_silent (p : List String) (q : List String)
    (w : SignalWatcher) (hfired : w.fired = false)
    (hperm : (p ++ q).Perm w.pending) (hq : q ≠ []) :
    (deliver w p).fired = false ∧ (deliver w p).fires = w.fires ∧
      q.Perm (deliver w p).pending := by
  induction p generalizing w with
  | nil => exact ⟨hfired, rfl, hperm⟩
  | cons hd tl ih =>
    have hmem : hd ∈ w.pending := hperm.mem_iff.mp (List.mem_cons_self hd _)
    have htl : (tl ++ q).Perm (w.pending.erase hd) := by
      have : (hd :: (tl ++ q)).Perm w.pending := hperm
      exact (this.trans (List.perm_cons_erase hmem)).cons_inv
    have hnil : w.pending.erase hd ≠ [] := by
      intro h
      rw [h] at htl
      rcases List.append_eq_nil.mp htl.eq_nil with ⟨-, h2⟩
      exact hq h2
    unfold deliver
    rw [List.foldl_cons]
    unfold signal_received
    rw [hfired]
    simp only [Bool.false_eq_true, if_false, if_neg hnil]
    exact ih _ rfl htl

-- --------------------------------------------------------------------------
-- Claim C1 (SignalWatcher barrier fires exactly once)
-- --------------------------------------------------------------------------

/--
C1: for every sequence of `register_signal` calls (registering the distinct
`names`, as `pre_visible_setup` registers `conda_data_ready` and
`feature_flags_ready`) followed by `signal_received` calls covering exactly
the registered names in any order, the stored callback is invoked exactly
once; it is not invoked while any delivery is still outstanding (so it runs
only after the last registered name is received); and later `signal_received`
calls never re-invoke it.
-/
theorem watcher_fires_exactly_once (names order : List String)
    (_hnd : names.Nodup) (hne : names ≠ []) (hperm : order.Perm names) :
    (deliver (watcher_init names) order).fires = 1 ∧
    (∀ p q, order = p ++ q → q ≠ [] →
      (deliver (watcher_init names) p).fires = 0) ∧
    (∀ extra, (deliver (deliver (watcher_init names) order) extra).fires = 1) := by
  have horder : order ≠ [] := by
    intro h
    subst h
    exact hne hperm.symm.eq_nil
  have hfin : deliver (watcher_init names) order =
      { pending := [], fired := true, fires := 1 } :=
    deliver_perm_fires order (watcher_init names) rfl hperm horder
  refine ⟨by rw [hfin], ?_, ?_⟩
  · intro p q hpq hq
    have := deliver_incomplete_silent p q (watcher_init names) rfl
      (hpq ▸ hperm) hq
    exact this.2.1
  · intro extra
    rw [hfin, deliver_fired _ extra rfl]

/--
Witness for C1 at the registration set of `MainWindow.pre_visible_setup`,
with the feature-flags signal delivered first and a late duplicate delivery
afterwards.
-/
theorem watcher_fires_exactly_once_witness :
    (deliver (watcher_init ["conda_data_ready", "feature_flags_ready"])
      ["feature_flags_ready", "conda_data_ready"]).fires = 1 ∧
    (deliver (watcher_init ["conda_data_ready", "feature_flags_ready"])
      ["feature_flags_ready"]).fires = 0 ∧
    (deliver (deliver (watcher_init ["conda_data_ready", "feature_flags_ready"])
      ["feature_flags_ready", "conda_data_ready"]) ["conda_data_ready"]).fires = 1 := by
  have h := watcher_fires_exactly_once
    ["conda_data_ready", "feature_flags_ready"]
    ["feature_flags_ready", "conda_data_ready"]
    (by decide) (by decide) (List.Perm.swap "conda_data_ready" "feature_flags_ready" [])
  exact ⟨h.1, h.2.1 ["feature_flags_ready"] ["conda_data_ready"] rfl (by decide),
    h.2.2 ["conda_data_ready"]⟩

-- --------------------------------------------------------------------------
-- Issues and issue-solver pools (anaconda_navigator/widgets/main_window/
-- issue_solvers and anaconda_navigator/utils/notifications, consumed by
-- MainWindow.initial_setup and MainWindow.__reset_conda_data)
-- --------------------------------------------------------------------------

/--
Modelled from the spec: the `Issue` value produced by solver handlers (the
`issue_solvers` / `notifications` modules are not in the provided sources).
Only the tag set takes part in the claims; kind, message and severity are
carried opaquely as a single payload field.
-/
structure Issue where
  tags : List String
  payload : String
deriving DecidableEq, Repr

/--
Modelled from the spec: `NotificationCollection.only(tags=T)` filters the
collection to the issues carrying tag `T`, preserving their original relative
order.
-/
def Issue.onlyTag (collection : List Issue) (tag : String) : List Issue :=
  collection.filter (fun issue => issue.tags.contains tag)

/--
Modelled from the spec: `IssueSolverPool.solve(context)` runs every registered
handler in registration order against the shared context; each handler
returns zero or more issues which are appended to the running collection (to
which later handlers have read access), and the final collection is returned
once all handlers have run.
-/
def solvePool {Ctx : Type} (handlers : List (Ctx → List Issue → List Issue))
    (context : Ctx) : List Issue :=
  handlers.foldl (fun acc handler => acc ++ handler context acc) []

theorem solvePool_foldl_fixed {Ctx : Type} (context : Ctx) (issues : List Issue)
    (acc : List Issue) :
    (issues.map (fun issue => fun (_ : Ctx) (_ : List Issue) => [issue])).foldl
      (fun acc handler => acc ++ handler context acc) acc = acc ++ issues := by
  induction issues generalizing acc with
  | nil => simp
  | cons hd tl ih =>
    rw [List.map_cons, List.foldl_cons, ih]
    simp

-- --------------------------------------------------------------------------
-- Claim C8 (pool runs every handler, in order)
-- --------------------------------------------------------------------------

/--
C8: `IssueSolverPool.solve(context)` run with an empty handler list returns an
empty issue collection, and run with N handlers each returning one fixed issue
returns exactly those N issues in handler-registration order; no handler is
skipped or reordered at runtime.
-/
theorem solvePool_runs_all_handlers {Ctx : Type} (context : Ctx)
    (issues : List Issue) :
    solvePool [] context = [] ∧
      solvePool (issues.map (fun issue => fun (_ : Ctx) (_ : List Issue) => [issue]))
        context = issues := by
  constructor
  · rfl
  · unfold solvePool
    rw [solvePool_foldl_fixed]
    simp

-- --------------------------------------------------------------------------
-- MainWindow.initial_setup / MainWindow.__reset_conda_data branch structure
-- --------------------------------------------------------------------------

/-- Observable steps taken by `initial_setup` and `__reset_conda_data`. -/
inductive SetupEffect where
  | buildLayoutAndSurvey
  | connectSignalsAndConfigure
  | trackLaunchEvent
  | runConflictPool
  | selectEnvironment (pfx : String)
  | checkInternetConnectivity
  | setupHomeTab
  | checkForUpdates
  | fixTabOrder
  | setupTabs
  | setSplashAndToolbars
  | markSetupReady
  | showWindow
  | postVisibleSetup
  | componentsSetup
deriving DecidableEq, Repr

/--
`MainWindow.initial_setup`, traced as its sequence of observable steps.  The
conflict-pool result on the freshly fetched conda data is abstracted as the
`issues` argument (the pool handlers live outside the provided sources);
`default_env` is `self.config.get('main', 'default_env')`.  When
`issues.only(tags='default_env')` is non-empty the method re-selects the
default environment and returns immediately; otherwise it proceeds with the
normal setup tail.
-/
def initial_setup (issues : List Issue) (default_env : String) : List SetupEffect :=
  [SetupEffect.buildLayoutAndSurvey, SetupEffect.connectSignalsAndConfigure,
    SetupEffect.trackLaunchEvent, SetupEffect.runConflictPool] ++
  (if Issue.onlyTag issues "default_env" ≠ [] then
    [SetupEffect.selectEnvironment default_env]
  else
    [SetupEffect.checkInternetConnectivity, SetupEffect.setupTabs,
      SetupEffect.setSplashAndToolbars, SetupEffect.markSetupReady,
      SetupEffect.showWindow, SetupEffect.postVisibleSetup,
      SetupEffect.componentsSetup])

/--
`MainWindow.__reset_conda_data`, traced as its sequence of observable steps,
with the conflict-pool result abstracted as `issues` as in `initial_setup`.
-/
def reset_conda_data (issues : List Issue) (default_env : String) :
    List SetupEffect :=
  [SetupEffect.runConflictPool] ++
  (if Issue.onlyTag issues "default_env" ≠ [] then
    [SetupEffect.selectEnvironment default_env]
  else
    [SetupEffect.checkInternetConnectivity, SetupEffect.setupHomeTab,
      SetupEffect.checkForUpdates, SetupEffect.fixTabOrder,
      SetupEffect.componentsSetup])

-- --------------------------------------------------------------------------
-- Claim C2 (default_env issues short-circuit normal setup)
-- --------------------------------------------------------------------------

/--
C2: whenever the conflict pool run over freshly fetched conda data yields an
issue collection whose `only(tags='default_env')` filter is non-empty, the
window takes the corrective branch instead of normal setup: `initial_setup`
(and likewise `__reset_conda_data`) calls `select_environment` with the
configured default environment and returns without building tabs and without
configuring the registered components.
-/
theorem default_env_issue_short_circuits (issues : List Issue)
    (default_env : String)
    (h : Issue.onlyTag issues "default_env" ≠ []) :
    initial_setup issues default_env =
      [SetupEffect.buildLayoutAndSurvey, SetupEffect.connectSignalsAndConfigure,
        SetupEffect.trackLaunchEvent, SetupEffect.runConflictPool,
        SetupEffect.selectEnvironment default_env] ∧
    SetupEffect.setupTabs ∉ initial_setup issues default_env ∧
    SetupEffect.componentsSetup ∉ initial_setup issues default_env ∧
    reset_conda_data issues default_env =
      [SetupEffect.runConflictPool, SetupEffect.selectEnvironment default_env] ∧
    SetupEffect.componentsSetup ∉ reset_conda_data issues default_env := by
  have h1 : initial_setup issues default_env =
      [SetupEffect.buildLayoutAndSurvey, SetupEffect.connectSignalsAndConfigure,
        SetupEffect.trackLaunchEvent, SetupEffect.runConflictPool,
        SetupEffect.selectEnvironment default_env] := by
    unfold initial_setup
    rw [if_pos h]
    rfl
  have h2 : reset_conda_data issues default_env =
      [SetupEffect.runConflictPool, SetupEffect.selectEnvironment default_env] := by
    unfold reset_conda_data
    rw [if_pos h]
    rfl
  refine ⟨h1, ?_, ?_, h2, ?_⟩
  · rw [h1]
    simp
  · rw [h1]
    simp
  · rw [h2]
    simp

/--
Witness for C2 at the spec's scenario: one handler returning a single issue
tagged `default_env`, a second returning nothing; the resulting collection
triggers the corrective branch.
-/
theorem default_env_issue_short_circuits_witness :
    initial_setup (solvePool
        [fun _ _ => [⟨["default_env"], "env missing"⟩], fun _ _ => []] ()) "/opt/conda" =
      [SetupEffect.buildLayoutAndSurvey, SetupEffect.connectSignalsAndConfigure,
        SetupEffect.trackLaunchEvent, SetupEffect.runConflictPool,
        SetupEffect.selectEnvironment "/opt/conda"] :=
  (default_env_issue_short_circuits _ "/opt/conda" (by decide)).1

-- --------------------------------------------------------------------------
-- MainWindow._conda_output_ready (success/failure decision)
-- --------------------------------------------------------------------------

/--
The `output` payload of a finished conda worker, as read by
`MainWindow._conda_output_ready`: each field is the corresponding dictionary
key, `none` when the key is absent.
-/
structure CondaOutput where
  errorText : Option String
  exceptionType : Option String
  exceptionName : Option String
  success : Option Bool
deriving DecidableEq, Repr

/--
The branch decision of `MainWindow._conda_output_ready`: returns `true` when
the failure branch is taken (error message or Terms-of-Service dialog plus
error-branch re-selection) and `false` when the completion is treated as
success.  `isImportAction` embeds `worker.action == C.ACTION_IMPORT`,
`prefixIsDir` embeds `os.path.isdir(worker.prefix)`, `outputDict` is `none`
when `output` is not a dict (normalised to `{}`), and `err` is the `error`
argument (a string or `None`).  Mirrors:
`error_text = output.get('error', '')`, `exception_type` / `exception_name`
likewise, `success = output.get('success', True)` overridden by
`os.path.isdir(worker.prefix)` for the import action, and the test
`if is_error or error or not success`.
-/
def conda_output_error_branch (isImportAction : Bool) (prefixIsDir : Bool)
    (outputDict : Option CondaOutput) (err : Option String) : Bool :=
  let output := outputDict.getD ⟨none, none, none, none⟩
  let errorText := output.errorText.getD ""
  let exceptionType := output.exceptionType.getD ""
  let exceptionName := output.exceptionName.getD ""
  let success := if isImportAction then prefixIsDir else output.success.getD true
  let isError := (errorText != "") || (exceptionType != "") || (exceptionName != "")
  isError || (err.getD "" != "") || !success

-- --------------------------------------------------------------------------
-- Claim C5 (result-value success contract of _conda_output_ready)
-- --------------------------------------------------------------------------

/--
C5 counterexample: for a worker whose action is the import action and whose
prefix directory does not exist, the error argument is `None`, the output
carries no non-empty `error` / `exception_type` / `exception_name` field and
its `success` flag is `True`, yet `_conda_output_ready` takes the failure
branch — refuting the claim that these conditions alone imply success
treatment.
-/
theorem conda_output_ready_import_counterexample :
    (none : Option String).getD "" = "" ∧
    (CondaOutput.mk none none none (some true)).errorText.getD "" = "" ∧
    (CondaOutput.mk none none none (some true)).exceptionType.getD "" = "" ∧
    (CondaOutput.mk none none none (some true)).exceptionName.getD "" = "" ∧
    (CondaOutput.mk none none none (some true)).success.getD true = true ∧
    conda_output_error_branch true false
      (some (CondaOutput.mk none none none (some true))) none = true := by
  refine ⟨rfl, rfl, rfl, rfl, rfl, rfl⟩

/--
C5 amended: `_conda_output_ready` decides success from result values alone; a
completion is treated as success (no error dialog, no error-branch
re-selection) if and only if the error argument is empty or `None`, the output
carries no non-empty `error`, `exception_type` or `exception_name` field, and
— for the import action — the worker's prefix directory exists, while for
every other action the output's `success` flag is not false (missing flag and
non-dict output both default to success).
-/
theorem conda_output_success_iff (isImportAction prefixIsDir : Bool)
    (outputDict : Option CondaOutput) (err : Option String) :
    conda_output_error_branch isImportAction prefixIsDir outputDict err = false ↔
      (err.getD "" = "" ∧
        (outputDict.getD ⟨none, none, none, none⟩).errorText.getD "" = "" ∧
        (outputDict.getD ⟨none, none, none, none⟩).exceptionType.getD "" = "" ∧
        (outputDict.getD ⟨none, none, none, none⟩).exceptionName.getD "" = "" ∧
        (if isImportAction then prefixIsDir
          else (outputDict.getD ⟨none, none, none, none⟩).success.getD true) = true) := by
  unfold conda_output_error_branch
  cases isImportAction <;> simp <;> tauto

-- --------------------------------------------------------------------------
-- MainWindow.set_busy_status
-- --------------------------------------------------------------------------

/-- The `conda` argument of `set_busy_status`: `None`, a bool, or any other value. -/
inductive BusyArg where
  | pyNone
  | pyBool (b : Bool)
  | nonBool
deriving DecidableEq, Repr

/-- Observable side effects of `set_busy_status`. -/
inductive BusyEffect where
  | stopTimers
  | startTimers
  | emitCondaReady
  | emitReady
deriving DecidableEq, Repr

/--
`MainWindow.set_busy_status`: when `conda` is a bool, `busy_conda` is updated
and timers are stopped (busy) or started (idle); otherwise the stored value is
kept and no timer call is made.  Then `sig_conda_ready` is emitted when
`busy_conda` is falsy, and `sig_ready` when `any([busy_conda])` is falsy.
Returns the new `busy_conda` plus the emitted effects in order.
-/
def set_busy_status (busy_conda : Bool) (conda : BusyArg) : Bool × List BusyEffect :=
  let step :=
    match conda with
    | .pyBool b =>
      (b, if b then [BusyEffect.stopTimers] else [BusyEffect.startTimers])
    | _ => (busy_conda, [])
  let condaReadyEffects := if step.1 then [] else [BusyEffect.emitCondaReady]
  let readyEffects := if [step.1].any (fun x => x) then [] else [BusyEffect.emitReady]
  (step.1, step.2 ++ condaReadyEffects ++ readyEffects)

-- --------------------------------------------------------------------------
-- Claim C10 (set_busy_status frame and emission conditions)
-- --------------------------------------------------------------------------

/--
C10: for every call `set_busy_status(conda)` where `conda` is `None` or not a
bool, the `busy_conda` field is left unchanged and no timers are started or
stopped; and after every call, `sig_conda_ready` and `sig_ready` are emitted
if and only if `busy_conda` is false at the end of the call.
-/
theorem set_busy_status_spec (busy : Bool) :
    ((set_busy_status busy .pyNone).1 = busy ∧
      BusyEffect.stopTimers ∉ (set_busy_status busy .pyNone).2 ∧
      BusyEffect.startTimers ∉ (set_busy_status busy .pyNone).2) ∧
    ((set_busy_status busy .nonBool).1 = busy ∧
      BusyEffect.stopTimers ∉ (set_busy_status busy .nonBool).2 ∧
      BusyEffect.startTimers ∉ (set_busy_status busy .nonBool).2) ∧
    (∀ conda : BusyArg,
      (BusyEffect.emitCondaReady ∈ (set_busy_status busy conda).2 ↔
        (set_busy_status busy conda).1 = false) ∧
      (BusyEffect.emitReady ∈ (set_busy_status busy conda).2 ↔
        (set_busy_status busy conda).1 = false)) := by
  refine ⟨?_, ?_, ?_⟩
  · cases busy <;> exact ⟨rfl, by decide, by decide⟩
  · cases busy <;> exact ⟨rfl, by decide, by decide⟩
  · intro conda
    cases conda with
    | pyNone => cases busy <;> exact ⟨by decide, by decide⟩
    | nonBool => cases busy <;> exact ⟨by decide, by decide⟩
    | pyBool b => cases busy <;> cases b <;> exact ⟨by decide, by decide⟩

-- --------------------------------------------------------------------------
-- load_style_sheet pixel scaling (src/anaconda_navigator/utils/styles.py,
-- the re.sub(r'(\d+)px', scale_pixels, data) pass of load_style_sheet).
--
-- Modelled domain: style-sheet text over ASCII characters.  Python's `\d`
-- additionally matches the non-ASCII Unicode decimal digits, which this
-- embedding does not represent; every claim theorem below therefore carries
-- explicit ASCII side conditions at the positions where a non-ASCII digit
-- could change the program's behaviour.
-- --------------------------------------------------------------------------

/-- `int(...)` on a run of ASCII decimal digit characters. -/
def digitsToNat (l : List Char) : Nat :=
  l.foldl (fun acc c => acc * 10 + (c.toNat - '0'.toNat)) 0

/--
Rounding of a nonnegative integer to the nearest IEEE 754 double-precision
value (53 significand bits, ties to even), returned as an exact integer.
This is what CPython computes when converting an `int` to a `float`, and —
applied to `3 * g` and followed by the exact exponent shift `/ 4` — what one
correctly rounded multiplication of the double `g` by `0.75` (exactly `3/4`,
so the exact product is `3 * g / 4`) produces.
-/
def roundToDouble (n : Nat) : Nat :=
  if n < 2 ^ 53 then n
  else
    let shift := n.log2 + 1 - 53
    let q := n / 2 ^ shift
    let rem := n % 2 ^ shift
    let half := 2 ^ (shift - 1)
    if half < rem ∨ (rem = half ∧ q % 2 = 1) then (q + 1) * 2 ^ shift
    else q * 2 ^ shift

/--
`int(value * 0.75)` as Python computes it: `value` is converted to a double
(`none` embeds the `OverflowError` raised when the rounded value reaches
`2 ^ 1024`), the product with `0.75` is rounded once more (the significand of
`3 * g` rounded to 53 bits, the `/ 4` being an exact exponent shift; the
product cannot overflow), and `int(...)` truncates toward zero, which for a
nonnegative value is the floor performed by `Nat` division.
-/
def pyMul075 (v : Nat) : Option Nat :=
  let g := roundToDouble v
  if g < 2 ^ 1024 then some (roundToDouble (3 * g) / 4) else none

/--
The `scale_pixels` replacement callback of `load_style_sheet`: the matched
digit group is parsed as `value`; values of at most 1 are re-rendered as
`f'{value}px'`, larger values as `f'{int(value * 0.75)}px'` with the
multiplication performed in double precision (`pyMul075`); `none` embeds
the `OverflowError` the callback would propagate out of `re.sub`.
-/
def scale_pixels (digits : List Char) : Option (List Char) :=
  if digitsToNat digits ≤ 1 then
    some ((Nat.repr (digitsToNat digits)).toList ++ ['p', 'x'])
  else
    (pyMul075 (digitsToNat digits)).map fun n => (Nat.repr n).toList ++ ['p', 'x']

/--
Fuel-indexed scan implementing `re.sub(r'(\d+)px', scale_pixels, data)` on
ASCII text: the scanner walks the text left to right; at a digit the maximal
digit run is matched greedily and, when immediately followed by the literal
`px`, the whole match is replaced by `scale_pixels` applied to the digit
group (a `none` from the callback aborting the whole pass, as the raised
exception would) and scanning resumes after the match; otherwise the
character is copied unchanged.  The digit class is the ASCII `0`-`9` range;
see the section comment for the resulting domain restriction.  The fuel
(instantiated with the text length, which every recursive call strictly
decreases) only makes the recursion structural.
-/
def scale_px_fuel : Nat → List Char → Option (List Char)
  | 0, l => some l
  | _ + 1, [] => some []
  | fuel + 1, c :: rest =>
    if c.isDigit then
      if ((c :: rest).dropWhile Char.isDigit).take 2 = ['p', 'x'] then
        (scale_pixels ((c :: rest).takeWhile Char.isDigit)).bind fun repl =>
          (scale_px_fuel fuel (((c :: rest).dropWhile Char.isDigit).drop 2)).map
            fun tail => repl ++ tail
      else
        (scale_px_fuel fuel rest).map fun tail => c :: tail
    else
      (scale_px_fuel fuel rest).map fun tail => c :: tail

/--
The pixel-scaling pass of `load_style_sheet` over the loaded CSS text;
`none` embeds an exception propagating out of the pass.
-/
def scale_px (l : List Char) : Option (List Char) := scale_px_fuel l.length l

theorem digit_toNat_le (c : Char) (hc : c.isDigit = true) : c.toNat - '0'.toNat ≤ 9 := by
  have h : 48 ≤ c.val ∧ c.val ≤ 57 := by simpa [Char.isDigit] using hc
  have h2 : c.toNat ≤ 57 := h.2
  have h0 : '0'.toNat = 48 := rfl
  omega

theorem digitsToNat_foldl_lt (D : List Char) (hD : ∀ c ∈ D, c.isDigit = true) (acc : Nat) :
    D.foldl (fun a c => a * 10 + (c.toNat - '0'.toNat)) acc < (acc + 1) * 10 ^ D.length := by
  induction D generalizing acc with
  | nil => simp
  | cons d D' ih =>
    have hd : d.toNat - '0'.toNat ≤ 9 := digit_toNat_le d (hD d (by simp))
    have ih' := ih (fun c hc => hD c (by simp [hc])) (acc * 10 + (d.toNat - '0'.toNat))
    simp only [List.foldl_cons, List.length_cons]
    calc D'.foldl (fun a c => a * 10 + (c.toNat - '0'.toNat))
          (acc * 10 + (d.toNat - '0'.toNat))
        < (acc * 10 + (d.toNat - '0'.toNat) + 1) * 10 ^ D'.length := ih'
      _ ≤ ((acc + 1) * 10) * 10 ^ D'.length :=
          Nat.mul_le_mul_right _ (by omega)
      _ = (acc + 1) * 10 ^ (D'.length + 1) := by ring

theorem digitsToNat_lt (D : List Char) (hD : ∀ c ∈ D, c.isDigit = true) :
    digitsToNat D < 10 ^ D.length := by
  have := digitsToNat_foldl_lt D hD 0
  simpa [digitsToNat] using this

theorem roundToDouble_of_lt (n : Nat) (h : n < 2 ^ 53) : roundToDouble n = n := by
  unfold roundToDouble
  rw [if_pos h]

/--
In the regime `v < 10 ^ 15` (digit runs of at most 15 digits) the whole
double-precision computation `int(value * 0.75)` is exact: `v` and `3 * v`
both fit in 53 significand bits, so no rounding occurs and the result is the
integer floor `v * 3 / 4`.
-/
theorem pyMul075_small (v : Nat) (h : v < 10 ^ 15) : pyMul075 v = some (v * 3 / 4) := by
  have h53 : (10 : Nat) ^ 15 * 3 < 2 ^ 53 := by norm_num
  have hv : v < 2 ^ 53 := by omega
  have h3v : 3 * v < 2 ^ 53 := by omega
  have hbig : (2 : Nat) ^ 53 ≤ 2 ^ 1024 := Nat.pow_le_pow_right (by norm_num) (by norm_num)
  unfold pyMul075
  rw [roundToDouble_of_lt v hv]
  rw [if_pos (by omega)]
  rw [roundToDouble_of_lt _ h3v]
  rw [Nat.mul_comm 3 v]

theorem scale_pixels_of_short (D : List Char) (hD : ∀ c ∈ D, c.isDigit = true)
    (hlen : D.length ≤ 15) :
    scale_pixels D = some ((Nat.repr (if digitsToNat D ≤ 1 then digitsToNat D
      else digitsToNat D * 3 / 4)).toList ++ ['p', 'x']) := by
  have hv : digitsToNat D < 10 ^ 15 := by
    have h1 := digitsToNat_lt D hD
    have h2 : (10 : Nat) ^ D.length ≤ 10 ^ 15 := Nat.pow_le_pow_right (by norm_num) hlen
    omega
  unfold scale_pixels
  by_cases h1 : digitsToNat D ≤ 1
  · rw [if_pos h1, if_pos h1]
  · rw [if_neg h1, if_neg h1, pyMul075_small _ hv]
    rfl

theorem takeWhile_append_all (p : Char → Bool) (D l : List Char)
    (hD : ∀ c ∈ D, p c = true) :
    (D ++ l).takeWhile p = D ++ l.takeWhile p := by
  induction D with
  | nil => rfl
  | cons d D' ih =>
    have hd : p d = true := hD d (by simp)
    simp only [List.cons_append, List.takeWhile_cons, hd, if_true]
    rw [ih (fun c hc => hD c (by simp [hc]))]

theorem dropWhile_append_all (p : Char → Bool) (D l : List Char)
    (hD : ∀ c ∈ D, p c = true) :
    (D ++ l).dropWhile p = l.dropWhile p := by
  induction D with
  | nil => rfl
  | cons d D' ih =>
    have hd : p d = true := hD d (by simp)
    simp only [List.cons_append, List.dropWhile_cons, hd, if_true]
    exact ih (fun c hc => hD c (by simp [hc]))

theorem dropWhile_eq_self_of_takeWhile_nil (p : Char → Bool) (l : List Char)
    (h : l.takeWhile p = []) : l.dropWhile p = l := by
  cases l with
  | nil => rfl
  | cons a l' =>
    by_cases ha : p a = true
    · simp [List.takeWhile_cons, ha] at h
    · simp [List.dropWhile_cons, ha]

theorem dropWhile_length_le (p : Char → Bool) (l : List Char) :
    (l.dropWhile p).length ≤ l.length := by
  induction l with
  | nil => exact le_rfl
  | cons a l' ih =>
    by_cases ha : p a = true
    · simp only [List.dropWhile_cons, ha, if_true]
      exact ih.trans (Nat.le_succ _)
    · simp [List.dropWhile_cons, ha]

theorem scale_px_fuel_nil (f : Nat) : scale_px_fuel f [] = some [] := by
  cases f <;> rfl

theorem scale_px_fuel_eq (f : Nat) (l : List Char) (h : l.length ≤ f) :
    scale_px_fuel f l = scale_px l := by
  induction f using Nat.strong_induction_on generalizing l with
  | _ f ih =>
    match f, l with
    | 0, l =>
      have : l = [] := List.length_eq_zero.mp (Nat.le_zero.mp h)
      subst this
      rfl
    | f + 1, [] =>
      rw [scale_px_fuel_nil]
      rfl
    | f + 1, c :: rest =>
      have hrest : rest.length ≤ f := by simpa using h
      show scale_px_fuel (f + 1) (c :: rest) =
        scale_px_fuel (rest.length + 1) (c :: rest)
      simp only [scale_px_fuel]
      by_cases hc : c.isDigit = true
      · rw [if_pos hc, if_pos hc]
        by_cases hpx : ((c :: rest).dropWhile Char.isDigit).take 2 = ['p', 'x']
        · rw [if_pos hpx, if_pos hpx]
          have hdw : ((c :: rest).dropWhile Char.isDigit).length ≤ rest.length := by
            simp only [List.dropWhile_cons, hc, if_true]
            exact dropWhile_length_le _ _
          have htail : (((c :: rest).dropWhile Char.isDigit).drop 2).length ≤ rest.length := by
            rw [List.length_drop]
            omega
          rw [ih f (by omega) _ (by omega), ih rest.length (by omega) _ htail]
        · rw [if_neg hpx, if_neg hpx]
          rw [ih f (by omega) _ hrest, ih rest.length (by omega) _ le_rfl]
      · rw [if_neg hc, if_neg hc]
        rw [ih f (by omega) _ hrest, ih rest.length (by omega) _ le_rfl]

theorem scale_px_cons_not_digit (c : Char) (l : List Char) (hc : c.isDigit = false) :
    scale_px (c :: l) = (scale_px l).map fun tail => c :: tail := by
  show scale_px_fuel (l.length + 1) (c :: l) = _
  simp only [scale_px_fuel]
  rw [if_neg (by simp [hc])]
  rw [scale_px_fuel_eq l.length l le_rfl]

theorem scale_px_run_px (D l : List Char) (hne : D ≠ [])
    (hD : ∀ c ∈ D, c.isDigit = true) :
    scale_px (D ++ 'p' :: 'x' :: l) =
      (scale_pixels D).bind fun repl => (scale_px l).map fun tail => repl ++ tail := by
  obtain ⟨d, D', rfl⟩ : ∃ d D', D = d :: D' := by
    cases D with
    | nil => exact absurd rfl hne
    | cons d D' => exact ⟨d, D', rfl⟩
  have hd : d.isDigit = true := hD d (by simp)
  have htw : ((d :: D') ++ 'p' :: 'x' :: l).takeWhile Char.isDigit = d :: D' := by
    rw [takeWhile_append_all Char.isDigit _ _ hD]
    simp [List.takeWhile_cons]
  have hdw : ((d :: D') ++ 'p' :: 'x' :: l).dropWhile Char.isDigit = 'p' :: 'x' :: l := by
    rw [dropWhile_append_all Char.isDigit _ _ hD]
    simp [List.dropWhile_cons]
  show scale_px_fuel ((d :: D') ++ 'p' :: 'x' :: l).length ((d :: D') ++ 'p' :: 'x' :: l) = _
  rw [List.cons_append]
  simp only [scale_px_fuel]
  rw [if_pos hd]
  rw [← List.cons_append, hdw, htw]
  rw [if_pos (by rfl)]
  rw [show List.drop 2 ('p' :: 'x' :: l) = l from rfl]
  rw [scale_px_fuel_eq _ l (by simp; omega)]

theorem scale_px_run_no_px (D l : List Char) (hD : ∀ c ∈ D, c.isDigit = true)
    (hmax : l.takeWhile Char.isDigit = []) (hpx : l.take 2 ≠ ['p', 'x']) :
    scale_px (D ++ l) = (scale_px l).map fun tail => D ++ tail := by
  induction D with
  | nil =>
    show scale_px l = (scale_px l).map fun tail => [] ++ tail
    cases scale_px l <;> simp
  | cons d D' ih =>
    have hd : d.isDigit = true := hD d (by simp)
    have hdw : ((d :: D') ++ l).dropWhile Char.isDigit = l := by
      rw [dropWhile_append_all Char.isDigit _ _ hD]
      exact dropWhile_eq_self_of_takeWhile_nil Char.isDigit l hmax
    show scale_px_fuel ((d :: D') ++ l).length ((d :: D') ++ l) = _
    rw [List.cons_append]
    simp only [scale_px_fuel]
    rw [if_pos hd]
    rw [← List.cons_append, hdw]
    rw [if_neg hpx]
    rw [scale_px_fuel_eq _ (D' ++ l) (by simp)]
    rw [ih (fun c hc => hD c (by simp [hc]))]
    cases scale_px l <;> rfl

-- --------------------------------------------------------------------------
-- Claim C9 (pixel scaling of the loaded style sheet)
-- --------------------------------------------------------------------------

/--
C9 counterexample: the claim states that an occurrence whose value is 0 or 1
is left unchanged, but the scaling pass re-renders the matched digits through
`f'{value}px'`: on the input `margin: 01px` (value 1) the occurrence `01px`
is rewritten to `1px`, so the text is altered.
-/
theorem scale_px_leading_zero_counterexample :
    scale_px ("margin: 01px".toList) = some ("margin: 1px".toList) ∧
      "margin: 1px".toList ≠ "margin: 01px".toList := by
  constructor
  · rfl
  · decide

/--
C9 amended, restricted to ASCII style-sheet text (Python's `\d` also matches
non-ASCII Unicode decimal digits, which are outside this model; the ASCII
side conditions below mark every position where such a digit could occur):
the scaling pass of `load_style_sheet` replaces every occurrence of a digit
run immediately followed by `px` by the replacement the `scale_pixels`
callback computes for it — for runs of at most 15 digits (where the
double-precision `int(value * 0.75)` is provably exact) this is the
canonical decimal rendering of the value `v` itself followed by `px` when
`v` is 0 or 1 (identical to the original except that leading zeros are
dropped) and of `⌊v * 3 / 4⌋` followed by `px` otherwise — and passes all
other text through unaltered: the empty text, any ASCII character that is
not a digit, and any maximal digit run not immediately followed by `px`.
-/
theorem scale_px_rewrites_px_values :
    scale_px [] = some [] ∧
    (∀ c l, c.toNat < 128 → c.isDigit = false →
      scale_px (c :: l) = (scale_px l).map fun tail => c :: tail) ∧
    (∀ D l, D ≠ [] → (∀ c ∈ D, c.isDigit = true) →
      scale_px (D ++ 'p' :: 'x' :: l) =
        (scale_pixels D).bind fun repl => (scale_px l).map fun tail => repl ++ tail) ∧
    (∀ D, (∀ c ∈ D, c.isDigit = true) → D.length ≤ 15 →
      scale_pixels D = some ((Nat.repr (if digitsToNat D ≤ 1 then digitsToNat D
        else digitsToNat D * 3 / 4)).toList ++ ['p', 'x'])) ∧
    (∀ D l, (∀ c ∈ D, c.isDigit = true) → l.takeWhile Char.isDigit = [] →
      (∀ c ∈ l.take 1, c.toNat < 128) → l.take 2 ≠ ['p', 'x'] →
      scale_px (D ++ l) = (scale_px l).map fun tail => D ++ tail) :=
  ⟨rfl, fun c l _ hc => scale_px_cons_not_digit c l hc,
    scale_px_run_px, scale_pixels_of_short,
    fun D l hD hmax _ hpx => scale_px_run_no_px D l hD hmax hpx⟩

/--
Witness for the amended C9: the occurrence `24px` is rewritten to `18px`
(`⌊24 * 3 / 4⌋ = 18`, and the double-precision computation is exact there).
-/
theorem scale_px_rewrites_px_values_witness :
    scale_px ("24px".toList) = some ("18px".toList) := by
  have h3 := scale_px_rewrites_px_values.2.2.1 ['2', '4'] [] (by decide) (by decide)
  have h5 := scale_px_rewrites_px_values.2.2.2.1 ['2', '4'] (by decide) (by decide)
  rw [show ("24px".toList) = ['2', '4'] ++ 'p' :: 'x' :: [] from rfl, h3, h5]
  rfl
